import Mathlib

/-!
# pts-daemon: the connection service protocol

A shallow embedding of `jni/pts-daemon.c`: the authenticator `service_auth`,
the exec request parser and child launcher `service_exec`, and the session
loop of `service_main`, followed by theorems about them.

Conventions of the embedding.

* A C string is the list of its characters before the terminating NUL
  (`CStr`); a `char *` that may be `NULL` is an `Option CStr`.
* `strtok` keeps a hidden save pointer; here it is passed and returned
  explicitly as the text that is still to be scanned.
* The calls that leave the program (`load_file`, `bcrypt`, `chdir`, `fork`,
  `pts_exec`) take their outcome from an `Ext` record, one record per line
  served, and every call and every write is recorded as an `Event`.
-/

namespace PtsDaemon

/-- A C string: the characters before the terminating NUL. -/
abbrev CStr := List Char

/-- The C string held in a buffer: everything before the first NUL byte. -/
def cstr (buf : List Char) : CStr :=
  buf.takeWhile (fun c => c != Char.ofNat 0)

/-- The sign of `strcmp(a, b)`. -/
def strcmp : CStr → CStr → Int
  | [], [] => 0
  | [], _ :: _ => -1
  | _ :: _, [] => 1
  | a :: as, b :: bs =>
    if a = b then strcmp as bs else if a.toNat < b.toNat then -1 else 1

/-- `strtok(s, delim)` with the save pointer made explicit.  The scan starts
at `s`, or at the save pointer when `s` is `NULL`; leading delimiters are
skipped; the token runs up to the next delimiter, which is overwritten by NUL,
and the save pointer is left behind it (or at the end of the text). The result
is the token (`none` for `NULL`) and the new save pointer. -/
def strtok (s : Option CStr) (save : List Char) (delim : List Char) :
    Option CStr × List Char :=
  let start := match s with
    | some p => p
    | none => save
  let p := start.dropWhile (fun c => delim.contains c)
  if p.isEmpty then (none, [])
  else (some (p.takeWhile (fun c => !delim.contains c)),
        (p.dropWhile (fun c => !delim.contains c)).tail)

/-- `fgets` reading at most `k` bytes from the stream: the bytes stored and
the bytes left unread. Reading stops behind a newline. -/
def fgets_take : Nat → List Char → List Char × List Char
  | 0, inp => ([], inp)
  | _ + 1, [] => ([], [])
  | k + 1, c :: inp =>
    if c = '\n' then ([c], inp)
    else ((c :: (fgets_take k inp).1), (fgets_take k inp).2)

/-- `fgets(buf, n, fp)`: `none` (NULL) at end of stream, else the bytes stored
in `buf` (at most `n - 1`) and the rest of the stream. -/
def fgets (n : Nat) (inp : List Char) : Option (List Char × List Char) :=
  if inp.isEmpty then none else some (fgets_take (n - 1) inp)

/-- The text `printf("%d")` produces for an `int`. -/
def fmt_d (n : Int) : List Char :=
  if n < 0 then '-' :: Nat.toDigits 10 n.natAbs else Nat.toDigits 10 n.toNat

/-- Outcomes of the external calls made while one line is served. -/
structure Ext where
  /-- return value of `load_file(PATH_PREFIX "/passwd", hash_to_match, 60)` -/
  load_file_ret : Int
  /-- bytes 0..59 of `hash_to_match` after that call -/
  hash_buf : List Char
  /-- the string `bcrypt(pwd, hash_to_match)` returns -/
  bcrypt : CStr → CStr → List Char
  /-- return value of `chdir(arg)` -/
  chdir : Option CStr → Int
  /-- return value of `fork()` -/
  fork : Int
  /-- whether `pts_exec` comes back instead of replacing the process image -/
  pts_exec_returns : Bool

/-- One slot of the `argv` array of `service_exec`. -/
inductive Slot where
  | uninit
  | null
  | ptr (s : CStr)
deriving DecidableEq, Repr

/-- The slot that holds a pointer returned by `strtok`. -/
def Slot.ofPtr : Option CStr → Slot
  | none => Slot.null
  | some s => Slot.ptr s

/-- What the program does that is visible from outside. -/
inductive Event where
  /-- `fprintf(fp, ...)`: text written to the connection -/
  | fprintf (s : List Char)
  /-- `printf(...)`: a diagnostic on standard output -/
  | printf (s : List Char)
  | load_file
  | bcrypt (pwd hash : CStr)
  | chdir (path : Option CStr)
  | fork
  | fclose
  | signals_default
  | pts_exec (dev : Option CStr) (argv : List Slot)
  | exit (status : Nat)
deriving DecidableEq, Repr

/-- How a piece of code ends: it returns a value, the process image is
replaced by `pts_exec`, the process exits, or the behaviour is undefined
(a NULL pointer is handed to `strcmp`). -/
inductive Outcome (α : Type) where
  | ok (a : α)
  | replaced
  | exited (status : Nat)
  | undefined
deriving DecidableEq, Repr

def EXIT_SUCCESS : Nat := 0
def EXIT_FAILURE : Nat := 1

/-- Handles password authentication (`service_auth`): the events and the
"boolean" result. -/
def service_auth (ext : Ext) (pwd : Option CStr) : List Event × Bool :=
  let pwd := match pwd with
    | none => []
    | some p => p
  if ext.load_file_ret < 0 then
    ([Event.load_file, Event.printf "Warning: Unable to read passwd file!\n".toList], false)
  else
    let hash_to_match := cstr (ext.hash_buf.take 60)
    let user_hash := cstr (ext.bcrypt pwd hash_to_match)
    if user_hash.head? = some ':' then
      ([Event.load_file, Event.bcrypt pwd hash_to_match,
        Event.printf "Warning: passwd file contains an invalid hash\n".toList], false)
    else if hash_to_match.length ≠ user_hash.length ∨ strcmp hash_to_match user_hash ≠ 0 then
      ([Event.load_file, Event.bcrypt pwd hash_to_match], false)
    else
      ([Event.load_file, Event.bcrypt pwd hash_to_match], true)

def EXEC_MAX_ARGS : Nat := 32

/-- The loop `for (i = 1; i < EXEC_MAX_ARGS; i++)` of `service_exec`, entered
at index `i` with `n = EXEC_MAX_ARGS - i` iterations to go. The result is the
final value of `i` (`-1` after the `break`), the save pointer and the array. -/
def argv_loop : Nat → Nat → List Char → List Slot → Int × List Char × List Slot
  | 0, i, save, argv => ((i : Int), save, argv)
  | n + 1, i, save, argv =>
    let r := strtok none save " ".toList
    let argv := argv.set i (Slot.ofPtr r.1)
    if r.1.isNone then (-1, r.2, argv)
    else argv_loop n (i + 1) r.2 argv

/-- The second half of `service_exec` (from `// Fork` on): the child launcher,
given the device path `pts` and the array `argv`. -/
def exec_launch (ext : Ext) (pts : Option CStr) (argv : List Slot) :
    List Event × Outcome Unit :=
  if ext.fork = -1 then
    ([Event.fork, Event.fprintf "0 Failed to fork".toList], Outcome.ok ())
  else if ext.fork > 0 then
    ([Event.fork,
      Event.fprintf ("1 Child launched with PID = ".toList ++ fmt_d ext.fork ++ "\n".toList)],
     Outcome.ok ())
  else if ext.pts_exec_returns then
    ([Event.fork, Event.fclose, Event.signals_default, Event.pts_exec pts argv,
      Event.printf "Warning: pts_exec failed\n".toList, Event.exit EXIT_FAILURE],
     Outcome.exited EXIT_FAILURE)
  else
    ([Event.fork, Event.fclose, Event.signals_default, Event.pts_exec pts argv],
     Outcome.replaced)

/-- The parser and launcher `service_exec(fp, arg)`; `save` is the save pointer
of `strtok` on entry. -/
def service_exec (ext : Ext) (arg : Option CStr) (save : List Char) :
    List Event × Outcome Unit :=
  let r1 := strtok arg save " ".toList
  let pts := r1.1
  let r2 := strtok none r1.2 " ".toList
  match r2.1 with
  | none => ([Event.fprintf "0 No file specified\n".toList], Outcome.ok ())
  | some tmp =>
    let argv0 := (List.replicate (EXEC_MAX_ARGS + 1) Slot.uninit).set 0 (Slot.ptr tmp)
    let l := argv_loop (EXEC_MAX_ARGS - 1) 1 r2.2 argv0
    let r3 := strtok none l.2.1 " ".toList
    let argv := if l.1 ≠ -1 then l.2.2.set EXEC_MAX_ARGS (Slot.ofPtr r3.1) else l.2.2
    if l.1 ≠ -1 ∧ r3.1.isSome then
      ([Event.fprintf "0 Too many arguments in command\n".toList], Outcome.ok ())
    else exec_launch ext pts argv

/-- One pass of the service loop of `service_main` for a line that `fgets`
returned: the events, and the value of `authed` afterwards. -/
def service_line (ext : Ext) (authed : Bool) (line : List Char) :
    List Event × Outcome Bool :=
  let r1 := strtok (some (cstr line)) [] " ".toList
  let r2 := strtok none r1.2 "\n".toList
  let arg := r2.1
  match r1.1 with
  | none => ([], Outcome.undefined)
  | some cmd =>
    if strcmp cmd "auth".toList = 0 then
      let a := service_auth ext arg
      if a.2 then (a.1 ++ [Event.fprintf "1 Auth OK\n".toList], Outcome.ok a.2)
      else (a.1 ++ [Event.fprintf "0 Auth failed\n".toList], Outcome.ok a.2)
    else if !authed then
      ([Event.fprintf "0 Not authorized\n".toList], Outcome.ok authed)
    else if strcmp cmd "cd".toList = 0 then
      if ext.chdir arg = 0 then
        ([Event.chdir arg, Event.fprintf "1 Change directory OK\n".toList], Outcome.ok authed)
      else
        ([Event.chdir arg, Event.fprintf "0 Change directory failed\n".toList], Outcome.ok authed)
    else if strcmp cmd "exec".toList = 0 then
      match service_exec ext arg r2.2 with
      | (ev, Outcome.ok _) => (ev, Outcome.ok authed)
      | (ev, Outcome.replaced) => (ev, Outcome.replaced)
      | (ev, Outcome.exited st) => (ev, Outcome.exited st)
      | (ev, Outcome.undefined) => (ev, Outcome.undefined)
    else
      ([Event.fprintf "0 Bad command\n".toList], Outcome.ok authed)

/-- The service loop of `service_main` (`while(1) ...` and what follows it),
entered with the given value of `authed`. Each input is a line returned by
`fgets` with the outcomes of the external calls made while it is served; at
the end of the list `fgets` returns NULL. `pid` is the value of `getpid()`. -/
def service_loop (pid : Int) : Bool → List (List Char × Ext) → List Event × Outcome Unit
  | _, [] =>
    ([Event.fclose, Event.printf ("[".toList ++ fmt_d pid ++ "] Child exited\n".toList),
      Event.exit EXIT_SUCCESS], Outcome.exited EXIT_SUCCESS)
  | authed, (line, ext) :: rest =>
    match service_line ext authed line with
    | (ev, Outcome.ok a) => (ev ++ (service_loop pid a rest).1, (service_loop pid a rest).2)
    | (ev, Outcome.replaced) => (ev, Outcome.replaced)
    | (ev, Outcome.exited st) => (ev, Outcome.exited st)
    | (ev, Outcome.undefined) => (ev, Outcome.undefined)

/-- The value of `cmd` in the loop body: the first space-delimited token. -/
def line_cmd (line : List Char) : Option CStr :=
  (strtok (some (cstr line)) [] " ".toList).1

/-- The value of `arg` in the loop body: the rest of the line up to the newline. -/
def line_arg (line : List Char) : Option CStr :=
  (strtok none (strtok (some (cstr line)) [] " ".toList).2 "\n".toList).1

/-- The save pointer of `strtok` once `cmd` and `arg` have been taken. -/
def line_save (line : List Char) : List Char :=
  (strtok none (strtok (some (cstr line)) [] " ".toList).2 "\n".toList).2

/-- The words of the specification: the non-empty tokens of an exec argument
that are separated by spaces. -/
def tokens (arg : List Char) : List (List Char) :=
  (arg.splitOn ' ').filter (fun t => !t.isEmpty)

/-- The replies of `cd` and `exec`, and the calls of `chdir` and `fork`. -/
def cd_or_exec_effect : Event → Bool
  | Event.fprintf s =>
    s == "1 Change directory OK\n".toList || s == "0 Change directory failed\n".toList
      || "1 Child launched with PID = ".toList.isPrefixOf s
      || s == "0 No file specified\n".toList
      || s == "0 Too many arguments in command\n".toList
      || "0 Failed to fork".toList.isPrefixOf s
  | Event.chdir _ => true
  | Event.fork => true
  | Event.pts_exec _ _ => true
  | _ => false

/-- The reply of a successful `auth`. -/
def auth_ok : Event := Event.fprintf "1 Auth OK\n".toList

/-- A trace is gated when each effect of `cd` or `exec` in it comes after a
successful `auth` reply; `seen` tells whether one was written before the trace. -/
def gated : Bool → List Event → Bool
  | _, [] => true
  | seen, e :: es => (!cd_or_exec_effect e || seen) && gated (seen || e == auth_ok) es

/-- External calls that succeed: the passwd file holds the hash of "secret",
`chdir` succeeds and `fork` returns the child's pid in the parent. -/
def ext_ok : Ext :=
  { load_file_ret := 60, hash_buf := "$2a$hash-of-secret".toList,
    bcrypt := fun pwd _ =>
      if pwd = "secret".toList then "$2a$hash-of-secret".toList else "$2a$another-hash".toList,
    chdir := fun _ => 0, fork := 4242, pts_exec_returns := true }

/-- As `ext_ok`, seen from the child that `fork` creates. -/
def ext_child : Ext :=
  { load_file_ret := 60, hash_buf := "$2a$hash-of-secret".toList,
    bcrypt := fun pwd _ =>
      if pwd = "secret".toList then "$2a$hash-of-secret".toList else "$2a$another-hash".toList,
    chdir := fun _ => 0, fork := 0, pts_exec_returns := true }

/-- As `ext_ok`, but `fork` fails. -/
def ext_fork_fails : Ext :=
  { load_file_ret := 60, hash_buf := "$2a$hash-of-secret".toList,
    bcrypt := fun pwd _ =>
      if pwd = "secret".toList then "$2a$hash-of-secret".toList else "$2a$another-hash".toList,
    chdir := fun _ => 0, fork := -1, pts_exec_returns := true }

/-- An exec argument with a device and 33 argv tokens. -/
def arg_33 : List Char :=
  ("/dev/pts/3 a1 a2 a3 a4 a5 a6 a7 a8 a9 a10 a11 a12 a13 a14 a15 a16 a17 a18 a19 a20 " ++
    "a21 a22 a23 a24 a25 a26 a27 a28 a29 a30 a31 a32 a33").toList

/-- An exec argument with a device and exactly 32 argv tokens. -/
def arg_32 : List Char :=
  ("/dev/pts/3 a1 a2 a3 a4 a5 a6 a7 a8 a9 a10 a11 a12 a13 a14 a15 a16 a17 a18 a19 a20 " ++
    "a21 a22 a23 a24 a25 a26 a27 a28 a29 a30 a31 a32").toList

/-- The replies in a trace: the texts written to the connection by `fprintf`,
in order. -/
def replies (ev : List Event) : List (List Char) :=
  ev.filterMap (fun e =>
    match e with
    | Event.fprintf s => some s
    | _ => none)

/-- The indices at which the loop of `service_exec` stores into `argv`
(`argv[i] = strtok(NULL, " ")`), with the arguments of `argv_loop`. -/
def argv_loop_writes : Nat → Nat → List Char → List Nat
  | 0, _, _ => []
  | n + 1, i, save =>
    let r := strtok none save " ".toList
    if r.1.isNone then [i]
    else i :: argv_loop_writes n (i + 1) r.2

/-- The indices of all stores into `argv` made by `service_exec`, in order:
`argv[0] = tmp`, the stores of the loop, and `argv[EXEC_MAX_ARGS] = strtok(...)`
when the loop ended without `break`. -/
def service_exec_writes (arg : Option CStr) (save : List Char) : List Nat :=
  let r1 := strtok arg save " ".toList
  let r2 := strtok none r1.2 " ".toList
  match r2.1 with
  | none => []
  | some tmp =>
    let argv0 := (List.replicate (EXEC_MAX_ARGS + 1) Slot.uninit).set 0 (Slot.ptr tmp)
    let l := argv_loop (EXEC_MAX_ARGS - 1) 1 r2.2 argv0
    0 :: (argv_loop_writes (EXEC_MAX_ARGS - 1) 1 r2.2 ++
      (if l.1 ≠ -1 then [EXEC_MAX_ARGS] else []))

/-- The words of the specification: the tokens `ts` written out from token
number `i` on, with `gap j` spaces in front of token number `j` and `gap j`
spaces behind the last token, `j` being the number of tokens. -/
def spaced (gap : Nat → Nat) : Nat → List (List Char) → List Char
  | i, [] => List.replicate (gap i) ' '
  | i, t :: ts => List.replicate (gap i) ' ' ++ (t ++ spaced gap (i + 1) ts)

/-- External calls when the passwd file cannot be read. -/
def ext_no_passwd : Ext :=
  { load_file_ret := -1, hash_buf := [], bcrypt := fun _ _ => [],
    chdir := fun _ => 0, fork := 4242, pts_exec_returns := true }

/-- One client line of 139 bytes: 127 times `x`, then `auth secret` and the
newline. -/
def long_line : List Char :=
  List.replicate 127 'x' ++ "auth secret\n".toList

/-! ## Strings and tokens -/

theorem strcmp_eq_zero_iff (a b : CStr) : strcmp a b = 0 ↔ a = b := by
  induction a generalizing b with
  | nil => cases b <;> simp [strcmp]
  | cons x xs ih =>
    cases b with
    | nil => simp [strcmp]
    | cons y ys =>
      by_cases hxy : x = y
      · simp [strcmp, hxy, ih]
      · by_cases hlt : x.toNat < y.toNat <;> simp [strcmp, hxy, hlt]

/-- Scanning for tokens delimited by a single character `d`. -/
theorem strtok_single (s : Option CStr) (save : List Char) (d : Char) :
    strtok s save [d] =
      if ((s.getD save).dropWhile (fun c => c == d)).isEmpty then (none, [])
      else (some (((s.getD save).dropWhile (fun c => c == d)).takeWhile (fun c => c != d)),
        ((((s.getD save).dropWhile (fun c => c == d))).dropWhile (fun c => c != d)).tail) := by
  have h1 : (fun c => [d].contains c) = (fun c => c == d) := by
    funext c; cases h : c == d <;> simp [List.contains, List.elem, h]
  have h2 : (fun c => !([d].contains c)) = (fun c => c != d) := by
    funext c; cases h : c == d <;> simp [List.contains, List.elem, bne, h]
  unfold strtok
  cases s <;> simp only [h1, h2, Option.getD]

theorem strtok_getD (arg : Option CStr) (save delim : List Char) :
    strtok arg save delim = strtok none (arg.getD save) delim := by
  cases arg <;> rfl

/-- When `strtok` finds no token the save pointer is left at the end of the text. -/
theorem strtok_none_save (s : Option CStr) (save delim : List Char)
    (h : (strtok s save delim).1 = none) : (strtok s save delim).2 = [] := by
  unfold strtok at h ⊢
  simp only at h ⊢
  split_ifs at h ⊢ with hp
  rfl

theorem tokens_nil : tokens [] = [] := by
  simp [tokens, List.splitOn, List.splitOnP_nil]

theorem tokens_cons_space (s : List Char) : tokens (' ' :: s) = tokens s := by
  simp [tokens, List.splitOn, List.splitOnP_cons]

theorem splitOn_space (s : List Char) :
    s.splitOn ' ' = s.takeWhile (fun c => c != ' ') ::
      (match s.dropWhile (fun c => c != ' ') with
        | [] => []
        | _ :: r => r.splitOn ' ') := by
  induction s with
  | nil => simp [List.splitOn, List.splitOnP_nil]
  | cons c s ih =>
    by_cases hc : c = ' '
    · subst hc
      simp [List.splitOn, List.splitOnP_cons]
    · have ih2 := ih
      simp only [List.splitOn] at ih2 ⊢
      rw [List.splitOnP_cons, ih2]
      simp [hc, List.modifyHead]

theorem tokens_cons_of_ne (c : Char) (s : List Char) (hc : c ≠ ' ') :
    tokens (c :: s) = (c :: s.takeWhile (fun c => c != ' ')) ::
      tokens (s.dropWhile (fun c => c != ' ')).tail := by
  unfold tokens
  rw [splitOn_space (c :: s)]
  simp only [List.takeWhile_cons, List.dropWhile_cons, bne_iff_ne, ne_eq, hc, not_false_eq_true,
    if_true, decide_True]
  simp only [List.filter_cons]
  simp only [List.isEmpty_cons, Bool.not_false, if_true]
  congr 1
  cases h : s.dropWhile (fun c => c != ' ') with
  | nil => simp [List.splitOn, List.splitOnP_nil]
  | cons x r => simp

/-- One call of `strtok(NULL, " ")` takes the first token of the specification
and leaves the others. -/
theorem strtok_space (s : List Char) :
    (strtok none s " ".toList).1 = (tokens s).head? ∧
      tokens (strtok none s " ".toList).2 = (tokens s).tail := by
  show (strtok none s [' ']).1 = (tokens s).head? ∧
    tokens (strtok none s [' ']).2 = (tokens s).tail
  rw [strtok_single]
  induction s with
  | nil => simp [tokens_nil]
  | cons c s ih =>
    by_cases hc : c = ' '
    · subst hc
      simpa [tokens_cons_space] using ih
    · rw [tokens_cons_of_ne c s hc]
      simp [hc]

/-! ## The exec request parser -/

theorem set_length_append (pre : List Slot) (x v : Slot) (rest : List Slot) :
    (pre ++ x :: rest).set pre.length v = pre ++ v :: rest := by
  induction pre with
  | nil => rfl
  | cons p ps ih => simp [List.set, ih]

/-- The loop stops at the first missing token and stores NULL there. -/
theorem argv_loop_short (n : Nat) : ∀ (pre rest : List Slot) (save : List Char),
    (tokens save).length < n → (tokens save).length < rest.length →
    ∃ s, argv_loop n pre.length save (pre ++ rest) =
      (-1, s, pre ++ ((tokens save).map Slot.ptr ++
        Slot.null :: rest.drop ((tokens save).length + 1))) := by
  induction n with
  | zero => intro pre rest save h; omega
  | succ n ih =>
    intro pre rest save hn hr
    obtain ⟨h1, h2⟩ := strtok_space save
    cases rest with
    | nil => simp at hr
    | cons x rest =>
      cases hT : tokens save with
      | nil =>
        rw [hT] at h1
        refine ⟨(strtok none save " ".toList).2, ?_⟩
        simp only [argv_loop, h1, List.head?_nil, Option.isNone_none, if_true, Slot.ofPtr,
          set_length_append]
        simp
      | cons t T =>
        rw [hT] at h1 h2 hn hr
        simp only [List.length_cons, Nat.add_lt_add_iff_right] at hn hr
        simp only [List.tail_cons] at h2
        obtain ⟨s, hs⟩ := ih (pre ++ [Slot.ptr t]) rest (strtok none save " ".toList).2
          (by rw [h2]; exact hn) (by rw [h2]; exact hr)
        refine ⟨s, ?_⟩
        simp only [argv_loop, h1, List.head?_cons, Option.isNone_some, Slot.ofPtr,
          set_length_append]
        simp only [List.length_append, List.length_singleton, List.append_assoc,
          List.singleton_append, h2] at hs
        exact hs

/-- The loop runs to the end when enough tokens are left. -/
theorem argv_loop_full (n : Nat) : ∀ (pre rest : List Slot) (save : List Char),
    n ≤ (tokens save).length → n ≤ rest.length →
    ∃ s, tokens s = (tokens save).drop n ∧
      argv_loop n pre.length save (pre ++ rest) =
        (((pre.length + n : Nat) : Int), s,
          pre ++ (((tokens save).take n).map Slot.ptr ++ rest.drop n)) := by
  induction n with
  | zero => intro pre rest save _ _; exact ⟨save, by simp [argv_loop]⟩
  | succ n ih =>
    intro pre rest save hn hr
    obtain ⟨h1, h2⟩ := strtok_space save
    cases rest with
    | nil => simp at hr
    | cons x rest =>
      cases hT : tokens save with
      | nil => rw [hT] at hn; simp at hn
      | cons t T =>
        rw [hT] at h1 h2 hn
        simp only [List.length_cons, Nat.add_le_add_iff_right] at hn hr
        simp only [List.tail_cons] at h2
        obtain ⟨s, hs1, hs2⟩ := ih (pre ++ [Slot.ptr t]) rest (strtok none save " ".toList).2
          (by rw [h2]; exact hn) hr
        refine ⟨s, by rw [hs1, h2]; rfl, ?_⟩
        simp only [argv_loop, h1, List.head?_cons, Option.isNone_some, Slot.ofPtr,
          set_length_append]
        simp only [List.length_append, List.length_singleton, List.append_assoc,
          List.singleton_append, h2] at hs2
        rw [hs2, if_neg (by simp), Nat.add_right_comm, Nat.add_assoc]
        rfl

/-- What `service_exec` does, told by the tokens of the text it scans. -/
theorem service_exec_tokens (ext : Ext) (arg : Option CStr) (save : List Char) :
    service_exec ext arg save =
      match tokens (arg.getD save) with
      | [] => ([Event.fprintf "0 No file specified\n".toList], Outcome.ok ())
      | [_] => ([Event.fprintf "0 No file specified\n".toList], Outcome.ok ())
      | t0 :: t1 :: ts =>
        if 32 ≤ ts.length then
          ([Event.fprintf "0 Too many arguments in command\n".toList], Outcome.ok ())
        else
          exec_launch ext (some t0)
            (Slot.ptr t1 :: (ts.map Slot.ptr ++
              Slot.null :: List.replicate (31 - ts.length) Slot.uninit)) := by
  obtain ⟨a1, a2⟩ := strtok_space (arg.getD save)
  obtain ⟨b1, b2⟩ := strtok_space (strtok none (arg.getD save) " ".toList).2
  rw [a2] at b1 b2
  unfold service_exec
  simp only [strtok_getD arg save]
  cases hT : tokens (arg.getD save) with
  | nil =>
    rw [hT] at b1
    simp only [b1, List.tail_nil, List.head?_nil]
  | cons t0 T =>
    cases T with
    | nil =>
      rw [hT] at b1
      simp only [b1, List.tail_cons, List.head?_nil]
    | cons t1 ts =>
      rw [hT] at a1 b1 b2
      simp only [List.tail_cons, List.head?_cons] at a1 b1 b2
      simp only [b1, a1]
      have hrep : (List.replicate (EXEC_MAX_ARGS + 1) Slot.uninit).set 0 (Slot.ptr t1) =
          [Slot.ptr t1] ++ List.replicate 32 Slot.uninit := rfl
      have hn : EXEC_MAX_ARGS - 1 = 31 := rfl
      rw [hrep, hn]
      by_cases hlen : ts.length < 31
      · obtain ⟨s, hs⟩ := argv_loop_short 31 [Slot.ptr t1] (List.replicate 32 Slot.uninit)
          (strtok none (strtok none (arg.getD save) " ".toList).2 " ".toList).2
          (by rw [b2]; exact hlen) (by rw [b2]; simp; omega)
        simp only [List.length_singleton] at hs
        rw [hs, b2]
        have h32 : ¬ 32 ≤ ts.length := by omega
        simp only [ne_eq, not_true_eq_false, false_and, if_false, h32, List.drop_replicate]
        have : 32 - (ts.length + 1) = 31 - ts.length := by omega
        rw [this]; rfl
      · obtain ⟨s, hs1, hs2⟩ := argv_loop_full 31 [Slot.ptr t1] (List.replicate 32 Slot.uninit)
          (strtok none (strtok none (arg.getD save) " ".toList).2 " ".toList).2
          (by rw [b2]; omega) (by simp)
        simp only [List.length_singleton] at hs2
        rw [hs2]
        rw [b2] at hs1
        obtain ⟨c1, _⟩ := strtok_space s
        rw [hs1] at c1
        simp only [c1]
        by_cases h32 : 32 ≤ ts.length
        · have hne : (List.drop 31 ts) ≠ [] := by
            intro h
            have := congrArg List.length h
            simp at this; omega
          obtain ⟨x, xs, hx⟩ := List.exists_cons_of_ne_nil hne
          rw [hx]
          simp [h32]
        · have h31 : ts.length = 31 := by omega
          have hd : List.drop 31 ts = [] := by
            apply List.drop_eq_nil_of_le; omega
          have ht : List.take 31 ts = ts := by
            apply List.take_of_length_le; omega
          rw [hd, b2, ht]
          simp only [List.head?_nil, Option.isSome_none, Bool.false_eq_true, and_false, if_false,
            h32]
          congr 1
          simp [h31, Slot.ofPtr, EXEC_MAX_ARGS, List.set_append]

/-- In the process that called `fork` (the call failed or returned the child's
pid) `service_exec` returns to its caller. -/
theorem service_exec_returns (ext : Ext) (arg : Option CStr) (save : List Char)
    (hfork : ext.fork = -1 ∨ 0 < ext.fork) :
    (service_exec ext arg save).2 = Outcome.ok () := by
  rw [service_exec_tokens]
  have hl : ∀ pts argv, (exec_launch ext pts argv).2 = Outcome.ok () := by
    intro pts argv
    unfold exec_launch
    rcases hfork with h | h
    · rw [if_pos h]
    · have h1 : ext.fork ≠ -1 := by omega
      rw [if_neg h1, if_pos h]
  split
  · rfl
  · rfl
  · split
    · rfl
    · exact hl _ _

/-! ## The service loop -/

/-- The dispatch of the loop body for a line that has a verb. -/
theorem service_line_of_cmd (ext : Ext) (authed : Bool) (line : List Char) (cmd : CStr)
    (h : line_cmd line = some cmd) :
    service_line ext authed line =
      if cmd = "auth".toList then
        ((service_auth ext (line_arg line)).1 ++
          [Event.fprintf (if (service_auth ext (line_arg line)).2 then "1 Auth OK\n".toList
            else "0 Auth failed\n".toList)], Outcome.ok (service_auth ext (line_arg line)).2)
      else if authed = false then
        ([Event.fprintf "0 Not authorized\n".toList], Outcome.ok false)
      else if cmd = "cd".toList then
        ([Event.chdir (line_arg line),
          Event.fprintf (if ext.chdir (line_arg line) = 0 then "1 Change directory OK\n".toList
            else "0 Change directory failed\n".toList)], Outcome.ok true)
      else if cmd = "exec".toList then
        ((service_exec ext (line_arg line) (line_save line)).1,
          match (service_exec ext (line_arg line) (line_save line)).2 with
          | Outcome.ok _ => Outcome.ok true
          | Outcome.replaced => Outcome.replaced
          | Outcome.exited st => Outcome.exited st
          | Outcome.undefined => Outcome.undefined)
      else ([Event.fprintf "0 Bad command\n".toList], Outcome.ok true) := by
  unfold line_cmd at h
  unfold service_line line_arg line_save
  simp only [h, strcmp_eq_zero_iff]
  by_cases h1 : cmd = "auth".toList
  · simp only [h1, if_true]
    split <;> simp_all
  · simp only [h1, if_false]
    cases authed with
    | false => simp
    | true =>
      simp only [Bool.not_true, Bool.false_eq_true, Bool.true_eq_false, if_false]
      by_cases h2 : cmd = "cd".toList
      · simp only [h2, if_true]
        split <;> simp_all
      · simp only [h2, if_false]
        by_cases h3 : cmd = "exec".toList
        · simp only [h3, if_true]
          rcases hse : service_exec ext
            (strtok none (strtok (some (cstr line)) [] " ".toList).2 "\n".toList).1
            (strtok none (strtok (some (cstr line)) [] " ".toList).2 "\n".toList).2 with ⟨ev, o⟩
          cases o <;> simp
        · rw [if_neg h3, if_neg h3]

/-- A line without a verb hands NULL to `strcmp`. -/
theorem service_line_no_cmd (ext : Ext) (authed : Bool) (line : List Char)
    (h : line_cmd line = none) : service_line ext authed line = ([], Outcome.undefined) := by
  unfold line_cmd at h
  unfold service_line
  simp only [h]

/-- When `arg` is NULL the save pointer that `service_exec` inherits is at the
end of the text. -/
theorem line_save_of_no_arg (line : List Char) (h : line_arg line = none) :
    line_save line = [] :=
  strtok_none_save _ _ _ h

/-- The authenticator writes nothing to the connection. -/
theorem service_auth_no_reply (ext : Ext) (pwd : Option CStr) (s : List Char) :
    Event.fprintf s ∉ (service_auth ext pwd).1 := by
  unfold service_auth
  simp only
  split_ifs <;> simp

theorem gated_true (tr : List Event) : gated true tr = true := by
  induction tr with
  | nil => rfl
  | cons e es ih => simp [gated, ih]

theorem gated_append (seen : Bool) (a b : List Event) :
    gated seen (a ++ b) = (gated seen a && gated (seen || a.contains auth_ok) b) := by
  induction a generalizing seen with
  | nil => simp [gated]
  | cons e es ih =>
    have hc : ((seen || e == auth_ok) || es.contains auth_ok) =
        (seen || (e :: es).contains auth_ok) := by
      rw [List.contains_cons, Bool.or_assoc]
      congr 2
      exact BEq.comm
    rw [List.cons_append, gated, gated, ih, Bool.and_assoc, hc]

/-- Reading a gated trace: an effect of `cd` or `exec` has an `auth` success before it. -/
theorem gated_spec (tr : List Event) (h : gated false tr = true) (pre post : List Event)
    (e : Event) (htr : tr = pre ++ e :: post) (he : cd_or_exec_effect e = true) :
    auth_ok ∈ pre := by
  subst htr
  rw [gated_append] at h
  simp only [Bool.false_or, gated, Bool.and_eq_true, Bool.or_eq_true, Bool.not_eq_true'] at h
  obtain ⟨_, h2, _⟩ := h
  rcases h2 with h2 | h2
  · rw [he] at h2; cases h2
  · simpa using h2

/-- The events of an `auth` command hold no effect of `cd` or `exec`. -/
theorem service_auth_gated (ext : Ext) (pwd : Option CStr) (seen : Bool) (b : Bool) :
    gated seen ((service_auth ext pwd).1 ++ [Event.fprintf (if b then "1 Auth OK\n".toList
            else "0 Auth failed\n".toList)]) = true := by
  unfold service_auth
  simp only
  split_ifs <;> cases b <;> cases seen <;> rfl

/-- One pass of the loop keeps the trace gated, and `authed` becomes true only
together with an `auth` success reply. -/
theorem service_line_gated (ext : Ext) (authed : Bool) (line : List Char) :
    gated authed (service_line ext authed line).1 = true ∧
      ∀ a, (service_line ext authed line).2 = Outcome.ok a → a = true →
        (authed = true ∨ (service_line ext authed line).1.contains auth_ok = true) := by
  cases hc : line_cmd line with
  | none => rw [service_line_no_cmd ext authed line hc]; simp [gated]
  | some cmd =>
    rw [service_line_of_cmd ext authed line cmd hc]
    by_cases h1 : cmd = "auth".toList
    · rw [if_pos h1]
      refine ⟨service_auth_gated _ _ _ _, ?_⟩
      intro a ha hat
      right
      simp only [Outcome.ok.injEq] at ha
      rw [ha, hat]
      simp [auth_ok]
    · rw [if_neg h1]
      cases authed with
      | true => exact ⟨gated_true _, fun _ _ _ => Or.inl rfl⟩
      | false =>
        rw [if_pos rfl]
        refine ⟨rfl, ?_⟩
        intro a ha hat
        simp only [Outcome.ok.injEq] at ha
        rw [hat] at ha; cases ha

/-- The whole trace of the loop is gated by the value of `authed` on entry. -/
theorem service_loop_gated (pid : Int) (inputs : List (List Char × Ext)) :
    ∀ authed, gated authed (service_loop pid authed inputs).1 = true := by
  induction inputs with
  | nil => intro authed; simp [service_loop, gated, cd_or_exec_effect]
  | cons x rest ih =>
    intro authed
    obtain ⟨line, ext⟩ := x
    obtain ⟨h1, h2⟩ := service_line_gated ext authed line
    unfold service_loop
    rcases hs : service_line ext authed line with ⟨ev, o⟩
    rw [hs] at h1 h2
    cases o with
    | ok a =>
      simp only [gated_append, h1, Bool.true_and]
      cases a with
      | false =>
        cases hx : (authed || ev.contains auth_ok)
        · exact ih false
        · exact gated_true _
      | true =>
        have := h2 true rfl rfl
        have hx : (authed || ev.contains auth_ok) = true := by
          rcases this with h | h <;> simp_all
        rw [hx]; exact gated_true _
    | replaced => exact h1
    | exited st => exact h1
    | undefined => exact h1

/-- With no argument and nothing left to scan there is no file to launch. -/
theorem service_exec_absent (ext : Ext) :
    service_exec ext none [] =
      ([Event.fprintf "0 No file specified\n".toList], Outcome.ok ()) := by
  rw [service_exec_tokens, Option.getD_none, tokens_nil]

/-! ## The claims -/

/-- C1. Authorization gating: whatever lines the service loop is fed and whatever
the external calls return, every `cd` or `exec` reply and every call of `chdir`
or `fork` in its trace comes after a `1 Auth OK` reply on the connection. The
trace is that of the loop entered with `authed = 0`; it runs to the end of the
process, or to the line without a verb at which the loop body stops being
defined. -/
theorem auth_gating (pid : Int) (inputs : List (List Char × Ext)) (pre post : List Event)
    (e : Event) (htr : (service_loop pid false inputs).1 = pre ++ e :: post)
    (he : cd_or_exec_effect e = true) :
    Event.fprintf "1 Auth OK\n".toList ∈ pre :=
  gated_spec _ (service_loop_gated pid inputs false) pre post e htr he

/-- The gating theorem at the session `auth secret`, `cd /`: the call of `chdir`
has the `auth` success before it. -/
theorem auth_gating_witness :
    Event.fprintf "1 Auth OK\n".toList ∈
      [Event.load_file, Event.bcrypt "secret".toList "$2a$hash-of-secret".toList,
        Event.fprintf "1 Auth OK\n".toList] :=
  auth_gating 1 [("auth secret\n".toList, ext_ok), ("cd /\n".toList, ext_ok)]
    [Event.load_file, Event.bcrypt "secret".toList "$2a$hash-of-secret".toList,
      Event.fprintf "1 Auth OK\n".toList]
    [Event.fprintf "1 Change directory OK\n".toList, Event.fclose,
      Event.printf "[1] Child exited\n".toList, Event.exit 0]
    (Event.chdir (some "/".toList)) (by decide) (by decide)

/-- C2. In the UNAUTHENTICATED state a line whose verb is not `auth` gets the one
reply `0 Not authorized`, leaves the session UNAUTHENTICATED, and calls neither
`chdir` nor `fork`. -/
theorem unauthenticated_not_authorized (ext : Ext) (line : List Char) (cmd : CStr)
    (hcmd : line_cmd line = some cmd) (hne : cmd ≠ "auth".toList) :
    service_line ext false line =
      ([Event.fprintf "0 Not authorized\n".toList], Outcome.ok false) := by
  rw [service_line_of_cmd ext false line cmd hcmd, if_neg hne, if_pos rfl]

/-- With no `auth` sent, `cd /` is answered `0 Not authorized`. -/
theorem unauthenticated_not_authorized_witness :
    service_line ext_ok false "cd /\n".toList =
      ([Event.fprintf "0 Not authorized\n".toList], Outcome.ok false) :=
  unauthenticated_not_authorized ext_ok "cd /\n".toList "cd".toList (by decide) (by decide)

/-- C3. After an `auth` line the session is AUTHENTICATED exactly when
`service_auth` accepted the password of that line, whatever the state before;
the single reply is `1 Auth OK` in that case and `0 Auth failed` otherwise. -/
theorem auth_reflects_latest_attempt (ext : Ext) (authed : Bool) (line : List Char)
    (hcmd : line_cmd line = some "auth".toList) :
    service_line ext authed line =
        ((service_auth ext (line_arg line)).1 ++
          [Event.fprintf (if (service_auth ext (line_arg line)).2 then "1 Auth OK\n".toList
            else "0 Auth failed\n".toList)],
         Outcome.ok (service_auth ext (line_arg line)).2) ∧
      ∀ s, Event.fprintf s ∉ (service_auth ext (line_arg line)).1 := by
  refine ⟨?_, service_auth_no_reply ext _⟩
  rw [service_line_of_cmd ext authed line _ hcmd, if_pos rfl]

/-- A correct password authenticates an UNAUTHENTICATED session and a wrong one
demotes an AUTHENTICATED session. -/
theorem auth_reflects_latest_attempt_witness :
    (service_line ext_ok false "auth secret\n".toList).2 = Outcome.ok true ∧
      (service_line ext_ok true "auth wrong\n".toList).2 = Outcome.ok false :=
  ⟨((auth_reflects_latest_attempt ext_ok false "auth secret\n".toList (by decide)).1 ▸ by decide),
   ((auth_reflects_latest_attempt ext_ok true "auth wrong\n".toList (by decide)).1 ▸ by decide)⟩

/-- C4, as the code has it not: an AUTHENTICATED session that is sent `auth` with
a password that is not accepted becomes UNAUTHENTICATED. -/
theorem authenticated_not_terminal :
    service_line ext_ok true "auth wrong\n".toList =
      ([Event.load_file, Event.bcrypt "wrong".toList "$2a$hash-of-secret".toList,
        Event.fprintf "0 Auth failed\n".toList], Outcome.ok false) := by
  decide

/-- C4, amended. In the session process an AUTHENTICATED session stays
AUTHENTICATED after every line whose verb is not `auth`; after an `auth` line it
is AUTHENTICATED exactly when the password of that line was accepted. -/
theorem authenticated_kept_unless_auth_rejected (ext : Ext) (line : List Char) (cmd : CStr)
    (hcmd : line_cmd line = some cmd) (hfork : ext.fork = -1 ∨ 0 < ext.fork) :
    (service_line ext true line).2 =
      Outcome.ok (if cmd = "auth".toList then (service_auth ext (line_arg line)).2 else true) := by
  rw [service_line_of_cmd ext true line cmd hcmd]
  by_cases h1 : cmd = "auth".toList
  · rw [if_pos h1, if_pos h1]
  · rw [if_neg h1, if_neg h1, if_neg (by simp)]
    by_cases h2 : cmd = "cd".toList
    · rw [if_pos h2]
    · rw [if_neg h2]
      by_cases h3 : cmd = "exec".toList
      · rw [if_pos h3]
        simp only [service_exec_returns ext _ _ hfork]
      · rw [if_neg h3]

/-- An accepted `exec` leaves the session AUTHENTICATED. -/
theorem authenticated_kept_unless_auth_rejected_witness :
    (service_line ext_ok true "exec /dev/pts/3 /bin/echo hi\n".toList).2 = Outcome.ok true :=
  authenticated_kept_unless_auth_rejected ext_ok "exec /dev/pts/3 /bin/echo hi\n".toList
    "exec".toList (by decide) (by decide)

/-- C5. An exec argument with a device token and more than 32 argv tokens is
rejected as a whole: the only event is the reply `0 Too many arguments in
command`, `fork` is not called, and `service_exec` returns. -/
theorem exec_rejects_more_than_32_args (ext : Ext) (arg : CStr) (save : List Char)
    (h : 33 < (tokens arg).length) :
    service_exec ext (some arg) save =
      ([Event.fprintf "0 Too many arguments in command\n".toList], Outcome.ok ()) := by
  rw [service_exec_tokens]
  simp only [Option.getD_some]
  match hT : tokens arg, h with
  | t0 :: t1 :: ts, h =>
    simp only [List.length_cons] at h
    have h32 : 32 ≤ ts.length := by omega
    simp only [h32, if_true]

/-- A device and the 33 argv tokens `a1 ... a33` are rejected. -/
theorem exec_rejects_more_than_32_args_witness :
    service_exec ext_ok (some arg_33) [] =
      ([Event.fprintf "0 Too many arguments in command\n".toList], Outcome.ok ()) :=
  exec_rejects_more_than_32_args ext_ok arg_33 [] (by decide)

/-- C6. An exec argument with no token (absent, and then the save pointer of
`strtok` is at the end of the text, as it is whenever `service_main` passes
NULL; or empty; or spaces only) or with a device token alone is answered with
`0 No file specified`, and `fork` is not called. -/
theorem exec_no_file_specified (ext : Ext) (arg : Option CStr) (save : List Char)
    (hnone : arg = none → save = [])
    (hsome : ∀ a, arg = some a → (tokens a).length ≤ 1) :
    service_exec ext arg save =
      ([Event.fprintf "0 No file specified\n".toList], Outcome.ok ()) := by
  rw [service_exec_tokens]
  have hlen : (tokens (arg.getD save)).length ≤ 1 := by
    cases arg with
    | none => rw [Option.getD_none, hnone rfl, tokens_nil]; exact Nat.zero_le 1
    | some a => exact hsome a rfl
  match hT : tokens (arg.getD save), hlen with
  | [], _ => rfl
  | [_], _ => rfl
  | _ :: _ :: _, hlen => simp at hlen

/-- A device path alone names no file to launch. -/
theorem exec_no_file_specified_witness :
    service_exec ext_ok (some "/dev/pts/3".toList) [] =
      ([Event.fprintf "0 No file specified\n".toList], Outcome.ok ()) :=
  exec_no_file_specified ext_ok (some "/dev/pts/3".toList) [] (fun h => by cases h)
    (fun a h => by cases h; decide)

/-- C7. An exec argument whose space-separated non-empty tokens are
`t0, t1, ..., tk` with `1 ≤ k ≤ 32` is accepted: `fork` is called; in the child
`pts_exec` gets the device `t0` and the array `t1, ..., tk, NULL`; in the parent
the reply is `1 Child launched with PID = <pid>`. -/
theorem exec_accepts_up_to_32_args (ext : Ext) (arg : CStr) (save : List Char)
    (t0 : CStr) (ts : List CStr) (htok : tokens arg = t0 :: ts)
    (h1 : 1 ≤ ts.length) (h32 : ts.length ≤ 32) :
    service_exec ext (some arg) save =
      if ext.fork = -1 then
        ([Event.fork, Event.fprintf "0 Failed to fork".toList], Outcome.ok ())
      else if ext.fork > 0 then
        ([Event.fork, Event.fprintf
          ("1 Child launched with PID = ".toList ++ fmt_d ext.fork ++ "\n".toList)],
         Outcome.ok ())
      else if ext.pts_exec_returns then
        ([Event.fork, Event.fclose, Event.signals_default,
          Event.pts_exec (some t0)
            (ts.map Slot.ptr ++ Slot.null :: List.replicate (32 - ts.length) Slot.uninit),
          Event.printf "Warning: pts_exec failed\n".toList, Event.exit EXIT_FAILURE],
         Outcome.exited EXIT_FAILURE)
      else
        ([Event.fork, Event.fclose, Event.signals_default,
          Event.pts_exec (some t0)
            (ts.map Slot.ptr ++ Slot.null :: List.replicate (32 - ts.length) Slot.uninit)],
         Outcome.replaced) := by
  rw [service_exec_tokens]
  simp only [Option.getD_some, htok]
  match ts, h1, h32 with
  | t1 :: ts, _, h32 =>
    simp only [List.length_cons] at h32
    have hn : ¬ 32 ≤ ts.length := by omega
    have hsub : 32 - (ts.length + 1) = 31 - ts.length := by omega
    simp only [hn, if_false, exec_launch, List.map_cons, List.cons_append, List.length_cons, hsub]

/-- Exactly 32 argv tokens are accepted, and the child of
`exec /dev/pts/3 /bin/echo hi` hands `/dev/pts/3` and `/bin/echo, hi, NULL` to
`pts_exec`. -/
theorem exec_accepts_up_to_32_args_witness :
    service_exec ext_ok (some arg_32) [] =
        ([Event.fork, Event.fprintf "1 Child launched with PID = 4242\n".toList],
          Outcome.ok ()) ∧
      service_exec ext_child (some "/dev/pts/3 /bin/echo hi".toList) [] =
        ([Event.fork, Event.fclose, Event.signals_default,
          Event.pts_exec (some "/dev/pts/3".toList)
            (Slot.ptr "/bin/echo".toList :: Slot.ptr "hi".toList :: Slot.null ::
              List.replicate 30 Slot.uninit),
          Event.printf "Warning: pts_exec failed\n".toList, Event.exit 1],
         Outcome.exited 1) :=
  ⟨(exec_accepts_up_to_32_args ext_ok arg_32 [] "/dev/pts/3".toList (tokens arg_32).tail
      (by decide) (by decide) (by decide)).trans (by decide),
   (exec_accepts_up_to_32_args ext_child "/dev/pts/3 /bin/echo hi".toList []
      "/dev/pts/3".toList ["/bin/echo".toList, "hi".toList]
      (by decide) (by decide) (by decide)).trans (by decide)⟩

/-- C8, at the failing input: when `fork` fails, the reply written is
`0 Failed to fork` with no newline behind it. -/
theorem fork_failure_reply_unterminated :
    service_line ext_fork_fails true "exec /dev/pts/3 /bin/echo hi\n".toList =
        ([Event.fork, Event.fprintf "0 Failed to fork".toList], Outcome.ok true) ∧
      "0 Failed to fork".toList.getLast? = some 'k' := by
  decide

/-- C9, as the code has it not: the newline behind a verb is taken into the verb,
so `auth\n` is not an `auth` command (the authenticator is not run) and `exec\n`
is answered as an unknown verb. -/
theorem verb_newline_not_dispatched :
    service_line ext_ok false "auth\n".toList =
        ([Event.fprintf "0 Not authorized\n".toList], Outcome.ok false) ∧
      service_line ext_ok true "auth\n".toList =
        ([Event.fprintf "0 Bad command\n".toList], Outcome.ok true) ∧
      service_line ext_ok true "exec\n".toList =
        ([Event.fprintf "0 Bad command\n".toList], Outcome.ok true) := by
  decide

/-- C9, amended. The verb is the first token of the line delimited by a space. A
verb followed by one space and the newline is dispatched with an absent
argument: in every state `auth \n` runs the authenticator with the empty
password and is answered by `1 Auth OK` or `0 Auth failed`, and in the
AUTHENTICATED state `exec \n` is answered by `0 No file specified`. A newline
right behind the verb belongs to the verb. -/
theorem verb_space_newline_dispatched (ext : Ext) (authed : Bool) :
    line_cmd "auth \n".toList = some "auth".toList ∧
      line_arg "auth \n".toList = none ∧
      service_auth ext none = service_auth ext (some []) ∧
      service_line ext authed "auth \n".toList =
        ((service_auth ext (some [])).1 ++
          [Event.fprintf (if (service_auth ext (some [])).2 then "1 Auth OK\n".toList
            else "0 Auth failed\n".toList)],
         Outcome.ok (service_auth ext (some [])).2) ∧
      service_line ext true "exec \n".toList =
        ([Event.fprintf "0 No file specified\n".toList], Outcome.ok true) ∧
      line_cmd "auth\n".toList = some "auth\n".toList ∧
      line_cmd "exec\n".toList = some "exec\n".toList := by
  have harg : line_arg "auth \n".toList = none := by decide
  refine ⟨by decide, harg, rfl, ?_, ?_, by decide, by decide⟩
  · rw [service_line_of_cmd ext authed "auth \n".toList "auth".toList (by decide), if_pos rfl,
      harg]
    rfl
  · have hx : line_arg "exec \n".toList = none := by decide
    have hs : line_save "exec \n".toList = [] := by decide
    rw [service_line_of_cmd ext true "exec \n".toList "exec".toList (by decide),
      if_neg (by decide), if_neg (by decide), if_neg (by decide), if_pos rfl, hx, hs,
      service_exec_absent]

/-- C10, at the failing input: a line of spaces that ends without a newline has
no verb, `cmd` is NULL, and the loop body hands it to `strcmp`; no reply is
written. `fgets` returns such a line when the stream ends behind the spaces. -/
theorem no_verb_line_undefined :
    fgets 128 "   ".toList = some ("   ".toList, []) ∧
      line_cmd "   ".toList = none ∧
      service_line ext_ok true "   ".toList = ([], Outcome.undefined) := by
  decide

/-! ## Reading lines -/

/-- The bytes `fgets` stores and the bytes it leaves make up the stream. -/
theorem fgets_take_append (k : Nat) (inp : List Char) :
    (fgets_take k inp).1 ++ (fgets_take k inp).2 = inp := by
  induction k generalizing inp with
  | zero => rfl
  | succ k ih =>
    cases inp with
    | nil => rfl
    | cons c inp =>
      by_cases hc : c = '\n'
      · simp [fgets_take, hc]
      · simp [fgets_take, hc, ih]

/-- A call of `fgets` that may store a byte takes one from a stream that has one. -/
theorem fgets_take_length (k : Nat) (c : Char) (inp : List Char) :
    (fgets_take (k + 1) (c :: inp)).2.length ≤ inp.length := by
  induction k generalizing c inp with
  | zero =>
    by_cases hc : c = '\n' <;> simp [fgets_take, hc]
  | succ k ih =>
    by_cases hc : c = '\n'
    · simp [fgets_take, hc]
    · cases inp with
      | nil => simp [fgets_take, hc]
      | cons d inp =>
        have := ih d inp
        simp only [fgets_take, hc, if_false] at this ⊢
        simp only [List.length_cons]
        omega

/-- A buffer-full of bytes without a newline is read as one line, and the
bytes behind it are not taken. -/
theorem fgets_take_full (body rest : List Char) (hnl : '\n' ∉ body) :
    fgets_take body.length (body ++ rest) = (body, rest) := by
  induction body with
  | nil => rfl
  | cons c body ih =>
    have hc : c ≠ '\n' := fun h => hnl (by simp [h])
    have hb : '\n' ∉ body := fun h => hnl (by simp [h])
    simp [fgets_take, hc, ih hb]

/-- The authenticator writes no reply. -/
theorem replies_service_auth (ext : Ext) (pwd : Option CStr) :
    replies (service_auth ext pwd).1 = [] := by
  unfold service_auth
  simp only
  split_ifs <;> rfl

/-- In the session process the launcher writes one reply. -/
theorem replies_exec_launch (ext : Ext) (pts : Option CStr) (argv : List Slot)
    (hfork : ext.fork = -1 ∨ 0 < ext.fork) :
    (replies (exec_launch ext pts argv).1).length = 1 := by
  unfold exec_launch
  rcases hfork with h | h
  · rw [if_pos h]; rfl
  · have h1 : ext.fork ≠ -1 := by omega
    rw [if_neg h1, if_pos h]; rfl

/-- In the session process `service_exec` writes one reply. -/
theorem replies_service_exec (ext : Ext) (arg : Option CStr) (save : List Char)
    (hfork : ext.fork = -1 ∨ 0 < ext.fork) :
    (replies (service_exec ext arg save).1).length = 1 := by
  rw [service_exec_tokens]
  split
  · rfl
  · rfl
  · split
    · rfl
    · exact replies_exec_launch ext _ _ hfork

/-- In the session process a line with a verb is answered by one reply, and
the loop body comes to its end. -/
theorem service_line_one_reply (ext : Ext) (authed : Bool) (line : List Char) (cmd : CStr)
    (hcmd : line_cmd line = some cmd) (hfork : ext.fork = -1 ∨ 0 < ext.fork) :
    (replies (service_line ext authed line).1).length = 1 ∧
      ∃ a, (service_line ext authed line).2 = Outcome.ok a := by
  rw [service_line_of_cmd ext authed line cmd hcmd]
  by_cases h1 : cmd = "auth".toList
  · rw [if_pos h1]
    refine ⟨?_, _, rfl⟩
    simp only [replies, List.filterMap_append]
    have := replies_service_auth ext (line_arg line)
    simp only [replies] at this
    rw [this]
    rfl
  · rw [if_neg h1]
    cases authed with
    | false => rw [if_pos rfl]; exact ⟨rfl, _, rfl⟩
    | true =>
      rw [if_neg (by simp)]
      by_cases h2 : cmd = "cd".toList
      · rw [if_pos h2]; exact ⟨rfl, _, rfl⟩
      · rw [if_neg h2]
        by_cases h3 : cmd = "exec".toList
        · rw [if_pos h3]
          refine ⟨replies_service_exec ext _ _ hfork, true, ?_⟩
          simp only [service_exec_returns ext _ _ hfork]
        · rw [if_neg h3]; exact ⟨rfl, _, rfl⟩

/-- When the loop body comes to its end the loop serves the next line. -/
theorem service_loop_cons_ok (pid : Int) (ext : Ext) (authed a : Bool) (line : List Char)
    (rest : List (List Char × Ext)) (h : (service_line ext authed line).2 = Outcome.ok a) :
    service_loop pid authed ((line, ext) :: rest) =
      ((service_line ext authed line).1 ++ (service_loop pid a rest).1,
        (service_loop pid a rest).2) := by
  rcases hs : service_line ext authed line with ⟨ev, o⟩
  rw [hs] at h
  simp only at h
  subst h
  simp only [service_loop, hs]

/-! ## The claims, continued -/

set_option maxRecDepth 100000 in
/-- C11, as the code has it not: the client line of 139 bytes `long_line`
(127 times `x`, then `auth secret`). The first `fgets` takes the 127 bytes and
not the bytes behind them; when the next `fgets` returns those bytes, as it
does when they arrive in a later send, the loop serves them as an `auth`
command: the one client line gets two replies and the session is
authenticated by what lay beyond the buffer. -/
theorem long_line_served_twice :
    fgets 128 long_line = some (List.replicate 127 'x', "auth secret\n".toList) ∧
      fgets 128 "auth secret\n".toList = some ("auth secret\n".toList, []) ∧
      service_loop 1 false
          [(List.replicate 127 'x', ext_ok), ("auth secret\n".toList, ext_ok)] =
        ([Event.fprintf "0 Not authorized\n".toList, Event.load_file,
          Event.bcrypt "secret".toList "$2a$hash-of-secret".toList,
          Event.fprintf "1 Auth OK\n".toList, Event.fclose,
          Event.printf "[1] Child exited\n".toList, Event.exit 0], Outcome.exited 0) := by
  decide

/-- C11, amended. An over-long line is cut at the buffer and the program does
not skip what is cut off. When a client line has more than 127 bytes before its
newline, the first `fgets` returns its leading 127 bytes and leaves the bytes
behind them; the session serves the 127 bytes, when they hold a verb, as one
command with one reply; and the line that the next `fgets` returns from the
bytes left behind is served, when it holds a verb, as a further command with a
reply of its own, in the state the first command left. -/
theorem long_line_tail_is_served (pid : Int) (e0 e1 : Ext) (authed : Bool)
    (body bytes : List Char) (c0 c1 : CStr) (rest : List (List Char × Ext))
    (hlen : body.length = 127) (hnl : '\n' ∉ body) (hbytes : bytes ≠ [])
    (hc0 : line_cmd body = some c0) (hc1 : line_cmd (fgets_take 127 bytes).1 = some c1)
    (hf0 : e0.fork = -1 ∨ 0 < e0.fork) (hf1 : e1.fork = -1 ∨ 0 < e1.fork) :
    fgets 128 (body ++ bytes) = some (body, bytes) ∧
      fgets 128 bytes = some ((fgets_take 127 bytes).1, (fgets_take 127 bytes).2) ∧
      ∃ a0 a1, (service_line e0 authed body).2 = Outcome.ok a0 ∧
        (replies (service_line e0 authed body).1).length = 1 ∧
        (service_line e1 a0 (fgets_take 127 bytes).1).2 = Outcome.ok a1 ∧
        (replies (service_line e1 a0 (fgets_take 127 bytes).1).1).length = 1 ∧
        service_loop pid authed ((body, e0) :: ((fgets_take 127 bytes).1, e1) :: rest) =
          ((service_line e0 authed body).1 ++
            ((service_line e1 a0 (fgets_take 127 bytes).1).1 ++ (service_loop pid a1 rest).1),
           (service_loop pid a1 rest).2) := by
  refine ⟨?_, ?_, ?_⟩
  · have hf := fgets_take_full body bytes hnl
    rw [hlen] at hf
    have hne : (body ++ bytes).isEmpty = false := by
      cases body with
      | nil => simp at hlen
      | cons c b => rfl
    simp only [fgets, hne, Bool.false_eq_true, if_false]
    exact congrArg some hf
  · have hne : bytes.isEmpty = false := by
      cases bytes with
      | nil => exact absurd rfl hbytes
      | cons c b => rfl
    simp only [fgets, hne, Bool.false_eq_true, if_false]
  · obtain ⟨r0, a0, ha0⟩ := service_line_one_reply e0 authed body c0 hc0 hf0
    obtain ⟨r1, a1, ha1⟩ :=
      service_line_one_reply e1 a0 (fgets_take 127 bytes).1 c1 hc1 hf1
    refine ⟨a0, a1, ha0, r0, ha1, r1, ?_⟩
    rw [service_loop_cons_ok pid e0 authed a0 body _ ha0,
      service_loop_cons_ok pid e1 a0 a1 (fgets_take 127 bytes).1 rest ha1]

set_option maxRecDepth 100000 in
/-- The client line `long_line`: the 127 bytes `x` are answered
`0 Not authorized`, and `auth secret`, read next, is answered `1 Auth OK`. -/
theorem long_line_tail_is_served_witness :
    fgets 128 long_line = some (List.replicate 127 'x', "auth secret\n".toList) ∧
      fgets 128 "auth secret\n".toList = some ("auth secret\n".toList, []) ∧
      replies (service_loop 1 false
          [(List.replicate 127 'x', ext_ok), ("auth secret\n".toList, ext_ok)]).1 =
        ["0 Not authorized\n".toList, "1 Auth OK\n".toList] :=
  ⟨(long_line_tail_is_served 1 ext_ok ext_ok false (List.replicate 127 'x')
      "auth secret\n".toList (List.replicate 127 'x') "auth".toList []
      (by decide) (by decide) (by decide) (by decide) (by decide) (by decide) (by decide)).1,
    (long_line_tail_is_served 1 ext_ok ext_ok false (List.replicate 127 'x')
      "auth secret\n".toList (List.replicate 127 'x') "auth".toList []
      (by decide) (by decide) (by decide) (by decide) (by decide) (by decide)
      (by decide)).2.1.trans (by decide),
    by decide⟩

/-- C12. When the passwd file cannot be read (`load_file` returns a negative
value), `service_auth` returns 0 for every password, present or absent, without
a call of `bcrypt`; an `auth` line is answered `0 Auth failed` and leaves the
session UNAUTHENTICATED, whatever it was before. -/
theorem auth_fails_closed (ext : Ext) (hload : ext.load_file_ret < 0) :
    (∀ pwd, service_auth ext pwd =
        ([Event.load_file, Event.printf "Warning: Unable to read passwd file!\n".toList],
          false)) ∧
      ∀ authed line, line_cmd line = some "auth".toList →
        service_line ext authed line =
          ([Event.load_file, Event.printf "Warning: Unable to read passwd file!\n".toList,
            Event.fprintf "0 Auth failed\n".toList], Outcome.ok false) := by
  have hauth : ∀ pwd, service_auth ext pwd =
      ([Event.load_file, Event.printf "Warning: Unable to read passwd file!\n".toList],
        false) := by
    intro pwd
    unfold service_auth
    simp only [hload, if_true]
  refine ⟨hauth, ?_⟩
  intro authed line hcmd
  rw [service_line_of_cmd ext authed line _ hcmd, if_pos rfl, hauth]
  rfl

/-- With the passwd file missing, `auth anything` is answered `0 Auth failed`. -/
theorem auth_fails_closed_witness :
    service_line ext_no_passwd false "auth anything\n".toList =
      ([Event.load_file, Event.printf "Warning: Unable to read passwd file!\n".toList,
        Event.fprintf "0 Auth failed\n".toList], Outcome.ok false) :=
  (auth_fails_closed ext_no_passwd (by decide)).2 false "auth anything\n".toList (by decide)

/-- C13. When the passwd file was read, `service_auth` returns true exactly when
the candidate hash `bcrypt(pwd, stored)` does not start with `:` and equals the
stored hash string, in length and in every character; the stored string has at
most 60 characters, and the password enters only through `bcrypt`. -/
theorem auth_accepts_iff_hash_matches (ext : Ext) (pwd : Option CStr)
    (hload : 0 ≤ ext.load_file_ret) :
    ((service_auth ext pwd).2 = true ↔
        (cstr (ext.bcrypt (pwd.getD []) (cstr (ext.hash_buf.take 60)))).head? ≠ some ':' ∧
          (cstr (ext.hash_buf.take 60)).length =
            (cstr (ext.bcrypt (pwd.getD []) (cstr (ext.hash_buf.take 60)))).length ∧
          cstr (ext.hash_buf.take 60) =
            cstr (ext.bcrypt (pwd.getD []) (cstr (ext.hash_buf.take 60)))) ∧
      (cstr (ext.hash_buf.take 60)).length ≤ 60 := by
  have hnot : ¬ ext.load_file_ret < 0 := by omega
  have key : ∀ p : CStr, (service_auth ext pwd).2 =
      (service_auth ext (some p)).2 → ((service_auth ext pwd).2 = true ↔
        (cstr (ext.bcrypt p (cstr (ext.hash_buf.take 60)))).head? ≠ some ':' ∧
          (cstr (ext.hash_buf.take 60)).length =
            (cstr (ext.bcrypt p (cstr (ext.hash_buf.take 60)))).length ∧
          cstr (ext.hash_buf.take 60) =
            cstr (ext.bcrypt p (cstr (ext.hash_buf.take 60)))) := by
    intro p hp
    rw [hp]
    unfold service_auth
    simp only [hnot, if_false]
    split_ifs with h1 h2
    · simp [h1]
    · simp only [Bool.false_eq_true, false_iff, not_and]
      intro _ hl he
      rcases h2 with h2 | h2
      · exact h2 hl
      · exact h2 ((strcmp_eq_zero_iff _ _).mpr he)
    · simp only [true_iff]
      push_neg at h2
      exact ⟨h1, h2.1, (strcmp_eq_zero_iff _ _).mp h2.2⟩
  constructor
  · cases pwd with
    | none => exact key [] rfl
    | some p => exact key p rfl
  · unfold cstr
    exact le_trans (List.takeWhile_prefix _).length_le (List.length_take_le 60 _)

/-- The password `secret` is accepted against the stored hash of `secret`. -/
theorem auth_accepts_iff_hash_matches_witness :
    (service_auth ext_ok (some "secret".toList)).2 = true :=
  ((auth_accepts_iff_hash_matches ext_ok (some "secret".toList) (by decide)).1).2
    (by decide)

/-! ## Lines with an argument, and the exec child -/

/-- A token that is followed by its delimiter is found whole, and the save
pointer is left behind the delimiter. -/
theorem strtok_token (t rest : List Char) (d : Char) (ht : t ≠ []) (hd : d ∉ t) :
    strtok none (t ++ d :: rest) [d] = (some t, rest) := by
  rw [strtok_single]
  obtain ⟨c, t', rfl⟩ := List.exists_cons_of_ne_nil ht
  have hc : c ≠ d := fun h => hd (by simp [h])
  have hall : ∀ a ∈ c :: t', (a != d) = true := by
    intro a ha
    simp only [bne_iff_ne, ne_eq]
    intro h
    exact hd (h ▸ ha)
  have hdrop : List.dropWhile (fun x => x == d) (c :: t' ++ d :: rest) = c :: t' ++ d :: rest := by
    simp [List.dropWhile_cons, hc]
  simp only [Option.getD_none, hdrop]
  rw [List.takeWhile_append_of_pos hall, List.dropWhile_append_of_pos hall]
  simp

/-- The verb and the argument of a line `v`, space, `r`, newline. -/
theorem line_split (line : List Char) (v r : CStr)
    (hform : cstr line = v ++ ' ' :: (r ++ ['\n']))
    (hv : v ≠ []) (hvs : ' ' ∉ v) (hr : r ≠ []) (hrn : '\n' ∉ r) :
    line_cmd line = some v ∧ line_arg line = some r ∧ line_save line = [] := by
  have h1 : strtok (some (cstr line)) [] " ".toList = (some v, r ++ ['\n']) := by
    rw [strtok_getD, Option.getD_some, hform]
    exact strtok_token v _ ' ' hv hvs
  have h2 : strtok none (r ++ ['\n']) "\n".toList = (some r, []) :=
    strtok_token r [] '\n' hr hrn
  unfold line_cmd line_arg line_save
  rw [h1]
  simp only [h2, and_self]

/-- A request that reaches `fork` has a device, a file and at most 31 further
arguments, and goes to the launcher with them. -/
theorem service_exec_accepted (ext : Ext) (arg : Option CStr) (save : List Char)
    (h : Event.fork ∈ (service_exec ext arg save).1) :
    ∃ t0 t1 ts, tokens (arg.getD save) = t0 :: t1 :: ts ∧ ts.length ≤ 31 ∧
      service_exec ext arg save =
        exec_launch ext (some t0)
          (Slot.ptr t1 :: (ts.map Slot.ptr ++
            Slot.null :: List.replicate (31 - ts.length) Slot.uninit)) := by
  have hs := service_exec_tokens ext arg save
  match hT : tokens (arg.getD save) with
  | [] => rw [hT] at hs; rw [hs] at h; simp at h
  | [_] => rw [hT] at hs; rw [hs] at h; simp at h
  | t0 :: t1 :: ts =>
    rw [hT] at hs
    by_cases h32 : 32 ≤ ts.length
    · simp only [h32, if_true] at hs
      rw [hs] at h; simp at h
    · simp only [h32, if_false] at hs
      exact ⟨t0, t1, ts, rfl, by omega, hs⟩

/-- The launcher in the child. -/
theorem exec_launch_child (ext : Ext) (pts : Option CStr) (argv : List Slot)
    (h0 : ext.fork = 0) :
    exec_launch ext pts argv =
      if ext.pts_exec_returns then
        ([Event.fork, Event.fclose, Event.signals_default, Event.pts_exec pts argv,
          Event.printf "Warning: pts_exec failed\n".toList, Event.exit EXIT_FAILURE],
         Outcome.exited EXIT_FAILURE)
      else
        ([Event.fork, Event.fclose, Event.signals_default, Event.pts_exec pts argv],
         Outcome.replaced) := by
  unfold exec_launch
  rw [h0, if_neg (by decide), if_neg (by decide)]

/-! ## The claims, continued -/

/-- C14. A line `v`, space, `r`, newline, with `v` non-empty and free of spaces
and `r` non-empty and free of newlines, has the verb `v` and the argument `r`,
the spaces inside and in front of `r` kept; `cd` hands `r` unsplit to `chdir`
and `auth` hands `r` unsplit to the authenticator. -/
theorem line_split_keeps_argument (ext : Ext) (authed : Bool) (line : List Char) (v r : CStr)
    (hform : cstr line = v ++ ' ' :: (r ++ ['\n']))
    (hv : v ≠ []) (hvs : ' ' ∉ v) (hr : r ≠ []) (hrn : '\n' ∉ r) :
    line_cmd line = some v ∧ line_arg line = some r ∧
      (v = "cd".toList →
        service_line ext true line =
          ([Event.chdir (some r),
            Event.fprintf (if ext.chdir (some r) = 0 then "1 Change directory OK\n".toList
              else "0 Change directory failed\n".toList)], Outcome.ok true)) ∧
      (v = "auth".toList →
        service_line ext authed line =
          ((service_auth ext (some r)).1 ++
            [Event.fprintf (if (service_auth ext (some r)).2 then "1 Auth OK\n".toList
              else "0 Auth failed\n".toList)], Outcome.ok (service_auth ext (some r)).2)) := by
  obtain ⟨hc, ha, _⟩ := line_split line v r hform hv hvs hr hrn
  refine ⟨hc, ha, ?_, ?_⟩
  · intro hcd
    rw [service_line_of_cmd ext true line v hc, hcd, if_neg (by decide), if_neg (by decide),
      if_pos rfl, ha]
  · intro hau
    rw [service_line_of_cmd ext authed line v hc, if_pos hau, ha]

/-- The line `cd /tmp/my dir` hands the path with its space to `chdir`. -/
theorem line_split_keeps_argument_witness :
    service_line ext_ok true "cd /tmp/my dir\n".toList =
      ([Event.chdir (some "/tmp/my dir".toList),
        Event.fprintf "1 Change directory OK\n".toList], Outcome.ok true) :=
  ((line_split_keeps_argument ext_ok true "cd /tmp/my dir\n".toList "cd".toList
    "/tmp/my dir".toList (by decide) (by decide) (by decide) (by decide) (by decide)).2.2.1
    rfl).trans (by decide)

/-- C15. In the child that `fork` creates in `service_exec`, whatever `pts_exec`
does, `service_exec` does not return to the command loop and nothing is written
to the connection: the process image is replaced, or, when `pts_exec` returns,
the child exits with a failure status; the loop serves no further line. -/
theorem exec_child_never_serves (ext : Ext) (arg : Option CStr) (save : List Char)
    (h0 : ext.fork = 0) (hf : Event.fork ∈ (service_exec ext arg save).1) :
    (service_exec ext arg save).2 =
        (if ext.pts_exec_returns then Outcome.exited EXIT_FAILURE else Outcome.replaced) ∧
      EXIT_FAILURE ≠ EXIT_SUCCESS ∧
      (∀ s, Event.fprintf s ∉ (service_exec ext arg save).1) ∧
      ∀ pid line rest, line_cmd line = some "exec".toList → line_arg line = arg →
        line_save line = save →
        service_loop pid true ((line, ext) :: rest) = service_exec ext arg save := by
  obtain ⟨t0, t1, ts, _, _, hs⟩ := service_exec_accepted ext arg save hf
  rw [hs, exec_launch_child ext _ _ h0]
  refine ⟨?_, by decide, ?_, ?_⟩
  · split_ifs <;> rfl
  · intro s
    split_ifs <;> simp
  · intro pid line rest hc ha hsv
    unfold service_loop
    rw [service_line_of_cmd ext true line _ hc, if_neg (by decide), if_neg (by decide),
      if_neg (by decide), if_pos rfl, ha, hsv, hs, exec_launch_child ext _ _ h0]
    split_ifs <;> rfl

/-- The child of `exec /dev/pts/3 /bin/echo hi`, with `pts_exec` coming back,
exits with status 1 and the line behind it is not served. -/
theorem exec_child_never_serves_witness :
    service_loop 1 true [("exec /dev/pts/3 /bin/echo hi\n".toList, ext_child),
        ("cd /\n".toList, ext_child)] =
      service_exec ext_child (some "/dev/pts/3 /bin/echo hi".toList) [] :=
  (exec_child_never_serves ext_child (some "/dev/pts/3 /bin/echo hi".toList) []
    (by decide) (by decide)).2.2.2 1 "exec /dev/pts/3 /bin/echo hi\n".toList
    [("cd /\n".toList, ext_child)] (by decide) (by decide) (by decide)

/-- C16. A line whose verb is not `auth` (a `cd`, an `exec` that is accepted,
rejected or fails in `fork`, an unknown verb) leaves `authed` as it was, and
the loop goes on to serve the lines behind it. -/
theorem non_auth_line_keeps_state (pid : Int) (ext : Ext) (authed : Bool) (line : List Char)
    (cmd : CStr) (rest : List (List Char × Ext))
    (hcmd : line_cmd line = some cmd) (hne : cmd ≠ "auth".toList)
    (hfork : ext.fork = -1 ∨ 0 < ext.fork) :
    (service_line ext authed line).2 = Outcome.ok authed ∧
      service_loop pid authed ((line, ext) :: rest) =
        ((service_line ext authed line).1 ++ (service_loop pid authed rest).1,
          (service_loop pid authed rest).2) := by
  have h1 : (service_line ext authed line).2 = Outcome.ok authed := by
    rw [service_line_of_cmd ext authed line cmd hcmd, if_neg hne]
    cases authed with
    | false => rw [if_pos rfl]
    | true =>
      rw [if_neg (by simp)]
      by_cases h2 : cmd = "cd".toList
      · rw [if_pos h2]
      · rw [if_neg h2]
        by_cases h3 : cmd = "exec".toList
        · rw [if_pos h3]
          simp only [service_exec_returns ext _ _ hfork]
        · rw [if_neg h3]
  refine ⟨h1, ?_⟩
  rcases hs : service_line ext authed line with ⟨ev, o⟩
  rw [hs] at h1
  simp only at h1
  subst h1
  simp only [service_loop, hs]

/-- After a failure of `fork` the session goes on: the `cd` behind the failed
`exec` is served. -/
theorem non_auth_line_keeps_state_witness :
    (service_loop 1 true [("exec /dev/pts/3 /bin/echo hi\n".toList, ext_fork_fails),
        ("cd /\n".toList, ext_ok)]).1 =
      [Event.fork, Event.fprintf "0 Failed to fork".toList, Event.chdir (some "/".toList),
        Event.fprintf "1 Change directory OK\n".toList, Event.fclose,
        Event.printf "[1] Child exited\n".toList, Event.exit 0] :=
  (congrArg Prod.fst (non_auth_line_keeps_state 1 ext_fork_fails true
    "exec /dev/pts/3 /bin/echo hi\n".toList "exec".toList [("cd /\n".toList, ext_ok)]
    (by decide) (by decide) (by decide)).2).trans (by decide)

/-! ## Tokens and spacing -/

/-- Every token is a non-empty piece of the argument without a space in it. -/
theorem tokens_mem (n : Nat) : ∀ arg : List Char, arg.length ≤ n →
    ∀ t ∈ tokens arg, t ≠ [] ∧ ' ' ∉ t ∧ t <:+: arg := by
  induction n with
  | zero =>
    intro arg h t ht
    have : arg = [] := List.length_eq_zero.mp (Nat.le_zero.mp h)
    subst this
    rw [tokens_nil] at ht
    cases ht
  | succ n ih =>
    intro arg h t ht
    cases arg with
    | nil => rw [tokens_nil] at ht; cases ht
    | cons c s =>
      simp only [List.length_cons, Nat.add_le_add_iff_right] at h
      by_cases hc : c = ' '
      · subst hc
        rw [tokens_cons_space] at ht
        obtain ⟨a, b, d⟩ := ih s h t ht
        exact ⟨a, b, d.trans (List.suffix_cons _ _).isInfix⟩
      · rw [tokens_cons_of_ne c s hc, List.mem_cons] at ht
        rcases ht with ht | ht
        · subst ht
          refine ⟨by simp, ?_, ?_⟩
          · intro hm
            rw [List.mem_cons] at hm
            rcases hm with hm | hm
            · exact hc hm.symm
            · have := List.mem_takeWhile_imp hm
              simp at this
          · exact ((List.prefix_cons_inj c).mpr (List.takeWhile_prefix _)).isInfix
        · have hsuf : (s.dropWhile (fun c => c != ' ')).tail <:+ c :: s :=
            ((List.tail_suffix _).trans (List.dropWhile_suffix _)).trans (List.suffix_cons _ _)
          have hlen : (s.dropWhile (fun c => c != ' ')).tail.length ≤ n :=
            le_trans ((List.tail_suffix _).trans (List.dropWhile_suffix _)).length_le h
          obtain ⟨a, b, d⟩ := ih _ hlen t ht
          exact ⟨a, b, d.trans hsuf.isInfix⟩

/-- Spaces in front of a text add no token. -/
theorem tokens_replicate_append (n : Nat) (s : List Char) :
    tokens (List.replicate n ' ' ++ s) = tokens s := by
  induction n with
  | zero => rfl
  | succ n ih => rw [List.replicate_succ, List.cons_append, tokens_cons_space, ih]

/-- A token in front of a text that is empty or opens with a space. -/
theorem tokens_token_append (t s : List Char) (ht : t ≠ []) (hsp : ' ' ∉ t)
    (hs : s = [] ∨ ∃ s', s = ' ' :: s') :
    tokens (t ++ s) = t :: tokens s := by
  obtain ⟨c, t', rfl⟩ := List.exists_cons_of_ne_nil ht
  have hc : c ≠ ' ' := fun h => hsp (by simp [h])
  have hall : ∀ a ∈ t', (a != ' ') = true := by
    intro a ha
    simp only [bne_iff_ne, ne_eq]
    intro h
    exact hsp (List.mem_cons_of_mem _ (h ▸ ha))
  rw [List.cons_append, tokens_cons_of_ne c _ hc, List.takeWhile_append_of_pos hall,
    List.dropWhile_append_of_pos hall]
  rcases hs with hs | ⟨s', hs⟩
  · subst hs
    simp [tokens_nil]
  · subst hs
    simp [tokens_cons_space]

/-- The tokens of a spaced text are the tokens it was made of. -/
theorem tokens_spaced (gap : Nat → Nat) (ts : List (List Char)) :
    ∀ i, (∀ t ∈ ts, t ≠ [] ∧ ' ' ∉ t) →
      (∀ j, i < j → j < i + ts.length → 1 ≤ gap j) →
      tokens (spaced gap i ts) = ts := by
  induction ts with
  | nil =>
    intro i _ _
    have := tokens_replicate_append (gap i) []
    rw [List.append_nil, tokens_nil] at this
    exact this
  | cons t ts ih =>
    intro i hts hgap
    have ht := hts t (List.mem_cons_self _ _)
    have hrest : ∀ t' ∈ ts, t' ≠ [] ∧ ' ' ∉ t' := fun t' h => hts t' (List.mem_cons_of_mem _ h)
    have hgap' : ∀ j, i + 1 < j → j < i + 1 + ts.length → 1 ≤ gap j := by
      intro j h1 h2
      apply hgap j (by omega)
      simp only [List.length_cons]; omega
    have hopen : spaced gap (i + 1) ts = [] ∨ ∃ s', spaced gap (i + 1) ts = ' ' :: s' := by
      cases ts with
      | nil =>
        cases hg : gap (i + 1) with
        | zero => left; simp [spaced, hg]
        | succ m => right; exact ⟨List.replicate m ' ', by simp [spaced, hg, List.replicate_succ]⟩
      | cons t' ts' =>
        right
        have h1 : 1 ≤ gap (i + 1) := hgap (i + 1) (by omega) (by simp only [List.length_cons]; omega)
        obtain ⟨m, hm⟩ : ∃ m, gap (i + 1) = m + 1 := ⟨gap (i + 1) - 1, by omega⟩
        exact ⟨List.replicate m ' ' ++ (t' ++ spaced gap (i + 1 + 1) ts'), by
          simp [spaced, hm, List.replicate_succ]⟩
    show tokens (List.replicate (gap i) ' ' ++ (t ++ spaced gap (i + 1) ts)) = t :: ts
    rw [tokens_replicate_append, tokens_token_append t _ ht.1 ht.2 hopen, ih (i + 1) hrest hgap']

/-- The stores of the loop stay below `i + n`. -/
theorem argv_loop_writes_bound (n : Nat) : ∀ (i : Nat) (save : List Char),
    ∀ j ∈ argv_loop_writes n i save, i ≤ j ∧ j < i + n := by
  induction n with
  | zero => intro i save j hj; simp [argv_loop_writes] at hj
  | succ n ih =>
    intro i save j hj
    simp only [argv_loop_writes] at hj
    split_ifs at hj with h
    · simp only [List.mem_singleton] at hj
      omega
    · rw [List.mem_cons] at hj
      rcases hj with hj | hj
      · omega
      · have := ih (i + 1) _ j hj
        omega

/-- An array handed to `pts_exec` is the one the launcher got for an accepted
request. -/
theorem service_exec_pts_exec (ext : Ext) (arg : Option CStr) (save : List Char)
    (dev : Option CStr) (argv : List Slot)
    (h : Event.pts_exec dev argv ∈ (service_exec ext arg save).1) :
    ∃ t0 t1 ts, tokens (arg.getD save) = t0 :: t1 :: ts ∧ ts.length ≤ 31 ∧ dev = some t0 ∧
      argv = Slot.ptr t1 :: (ts.map Slot.ptr ++
        Slot.null :: List.replicate (31 - ts.length) Slot.uninit) := by
  have hs := service_exec_tokens ext arg save
  match hT : tokens (arg.getD save) with
  | [] => rw [hT] at hs; rw [hs] at h; simp at h
  | [_] => rw [hT] at hs; rw [hs] at h; simp at h
  | t0 :: t1 :: ts =>
    rw [hT] at hs
    by_cases h32 : 32 ≤ ts.length
    · simp only [h32, if_true] at hs
      rw [hs] at h; simp at h
    · simp only [h32, if_false] at hs
      rw [hs] at h
      refine ⟨t0, t1, ts, rfl, by omega, ?_⟩
      unfold exec_launch at h
      split_ifs at h <;> simp at h <;> exact ⟨h.1, h.2⟩

/-! ## The claims, continued -/

/-- C17, as the code has it not: only the space delimits tokens, so the request
`/dev/pts/3 /bin/echo a<TAB>b<CR>` is accepted with the argv token `a<TAB>b<CR>`,
which holds a tab and a carriage return. -/
theorem exec_token_holds_whitespace :
    (service_exec ext_child (some "/dev/pts/3 /bin/echo a\tb\r".toList) []).1 =
        [Event.fork, Event.fclose, Event.signals_default,
          Event.pts_exec (some "/dev/pts/3".toList)
            (Slot.ptr "/bin/echo".toList :: Slot.ptr "a\tb\r".toList :: Slot.null ::
              List.replicate 30 Slot.uninit),
          Event.printf "Warning: pts_exec failed\n".toList, Event.exit 1] ∧
      '\t' ∈ "a\tb\r".toList ∧ '\r' ∈ "a\tb\r".toList := by
  decide

/-- C17, amended. For every accepted exec request the device path and every
argv token is a non-empty contiguous piece of the argument string without a
space in it, and the tokens are, in their order, the non-empty pieces into
which the spaces cut the argument: tokens are delimited by the space character
alone, with no quoting or escaping. -/
theorem exec_tokens_are_space_free_pieces (ext : Ext) (arg : CStr) (save : List Char)
    (hacc : Event.fork ∈ (service_exec ext (some arg) save).1) :
    ∃ t0 ts,
      service_exec ext (some arg) save =
        exec_launch ext (some t0)
          (ts.map Slot.ptr ++ Slot.null :: List.replicate (32 - ts.length) Slot.uninit) ∧
      (∀ t ∈ t0 :: ts, t ≠ [] ∧ ' ' ∉ t ∧ t <:+: arg) ∧
      ∃ pieces, [' '].intercalate pieces = arg ∧
        pieces.filter (fun p => !p.isEmpty) = t0 :: ts := by
  obtain ⟨t0, t1, ts, hT, hlen, hs⟩ := service_exec_accepted ext (some arg) save hacc
  rw [Option.getD_some] at hT
  refine ⟨t0, t1 :: ts, ?_, ?_, arg.splitOn ' ', List.intercalate_splitOn arg ' ', hT⟩
  · rw [hs]
    have : 32 - (t1 :: ts).length = 31 - ts.length := by
      simp only [List.length_cons]; omega
    rw [this]
    rfl
  · intro t ht
    rw [← hT] at ht
    exact tokens_mem arg.length arg (le_refl _) t ht

/-- The invariant at the request `/dev/pts/3 /bin/echo hi`. -/
theorem exec_tokens_are_space_free_pieces_witness :
    ∃ t0 ts,
      service_exec ext_ok (some "/dev/pts/3 /bin/echo hi".toList) [] =
        exec_launch ext_ok (some t0)
          (ts.map Slot.ptr ++ Slot.null :: List.replicate (32 - ts.length) Slot.uninit) ∧
      (∀ t ∈ t0 :: ts, t ≠ [] ∧ ' ' ∉ t ∧ t <:+: "/dev/pts/3 /bin/echo hi".toList) ∧
      ∃ pieces, [' '].intercalate pieces = "/dev/pts/3 /bin/echo hi".toList ∧
        pieces.filter (fun p => !p.isEmpty) = t0 :: ts :=
  exec_tokens_are_space_free_pieces ext_ok "/dev/pts/3 /bin/echo hi".toList [] (by decide)

/-- C18. Every store into `argv` is at an index from 0 to 32, inside the 33
slots of the array; and when `fork` is reached, with the argv tokens
`t1, ..., tk`, `1 ≤ k ≤ 32`, the array of 33 slots holds the tokens in slots
`0 .. k-1` and NULL in slot `k`. -/
theorem argv_in_bounds_and_terminated (ext : Ext) (arg : Option CStr) (save : List Char) :
    (∀ i ∈ service_exec_writes arg save, i < EXEC_MAX_ARGS + 1) ∧
      (Event.fork ∈ (service_exec ext arg save).1 →
        ∃ t0 ts argv, tokens (arg.getD save) = t0 :: ts ∧ 1 ≤ ts.length ∧ ts.length ≤ 32 ∧
          service_exec ext arg save = exec_launch ext (some t0) argv ∧
          argv.length = EXEC_MAX_ARGS + 1 ∧
          argv.take ts.length = ts.map Slot.ptr ∧
          argv[ts.length]? = some Slot.null) := by
  constructor
  · intro i hi
    unfold service_exec_writes at hi
    simp only at hi
    split at hi
    · cases hi
    · rw [List.mem_cons, List.mem_append] at hi
      rcases hi with hi | hi | hi
      · rw [hi]; decide
      · have := argv_loop_writes_bound (EXEC_MAX_ARGS - 1) 1 _ i hi
        simp only [EXEC_MAX_ARGS] at this ⊢
        omega
      · split_ifs at hi
        · simp only [List.mem_singleton] at hi
          rw [hi]; decide
        · cases hi
  · intro hf
    obtain ⟨t0, t1, ts, hT, hlen, hs⟩ := service_exec_accepted ext arg save hf
    refine ⟨t0, t1 :: ts, _, hT, by simp, by simp only [List.length_cons]; omega, hs, ?_, ?_, ?_⟩
    · simp only [List.length_cons, List.length_append, List.length_map, List.length_replicate,
        EXEC_MAX_ARGS]
      omega
    · simp only [List.length_cons, List.take_succ_cons, List.map_cons, List.cons.injEq,
        true_and]
      rw [List.take_append_of_le_length (by simp)]
      rw [List.take_of_length_le (by simp)]
    · simp only [List.length_cons, List.getElem?_cons_succ]
      rw [List.getElem?_append_right (by simp)]
      simp

/-- The array of the request with exactly 32 argv tokens: stores at the indices
0 to 32. -/
theorem argv_in_bounds_and_terminated_witness :
    service_exec_writes (some arg_32) [] = List.range 33 ∧
      (∀ i ∈ service_exec_writes (some arg_32) [], i < EXEC_MAX_ARGS + 1) ∧
      ∃ t0 ts argv, tokens ((some arg_32).getD []) = t0 :: ts ∧ 1 ≤ ts.length ∧
        ts.length ≤ 32 ∧
        service_exec ext_ok (some arg_32) [] = exec_launch ext_ok (some t0) argv ∧
        argv.length = EXEC_MAX_ARGS + 1 ∧
        argv.take ts.length = ts.map Slot.ptr ∧
        argv[ts.length]? = some Slot.null :=
  ⟨by decide, (argv_in_bounds_and_terminated ext_ok (some arg_32) []).1,
    (argv_in_bounds_and_terminated ext_ok (some arg_32) []).2 (by decide)⟩

/-- C19. Two exec arguments made of the same non-empty space-free tokens, with
any number of spaces in front, any number behind, and at least one between two
tokens, have the same outcome in `service_exec`; and no array handed to
`pts_exec` holds an empty string. -/
theorem exec_spacing_insensitive (ext : Ext) (ts : List (List Char))
    (hts : ∀ t ∈ ts, t ≠ [] ∧ ' ' ∉ t) (g1 g2 : Nat → Nat)
    (h1 : ∀ j, 1 ≤ j → j < ts.length → 1 ≤ g1 j)
    (h2 : ∀ j, 1 ≤ j → j < ts.length → 1 ≤ g2 j) (s1 s2 : List Char) :
    service_exec ext (some (spaced g1 0 ts)) s1 = service_exec ext (some (spaced g2 0 ts)) s2 ∧
      ∀ arg save dev argv, Event.pts_exec dev argv ∈ (service_exec ext (some arg) save).1 →
        Slot.ptr [] ∉ argv := by
  constructor
  · have e1 := tokens_spaced g1 ts 0 hts (fun j a b => h1 j a (by omega))
    have e2 := tokens_spaced g2 ts 0 hts (fun j a b => h2 j a (by omega))
    rw [service_exec_tokens, service_exec_tokens, Option.getD_some, Option.getD_some, e1, e2]
  · intro arg save dev argv h
    obtain ⟨t0, t1, ts', hT, _, _, hargv⟩ := service_exec_pts_exec ext (some arg) save dev argv h
    rw [Option.getD_some] at hT
    have hne : ∀ t ∈ t0 :: t1 :: ts', t ≠ [] := fun t ht =>
      (tokens_mem arg.length arg (le_refl _) t (hT ▸ ht)).1
    intro hmem
    rw [hargv] at hmem
    simp only [List.mem_cons, Slot.ptr.injEq, List.mem_append, List.mem_map, List.mem_replicate,
      reduceCtorEq, and_false, or_false, false_or] at hmem
    rcases hmem with hmem | ⟨t, ht, hte⟩
    · exact hne t1 (by simp) hmem.symm
    · exact hne t (by simp [ht]) hte

/-- The request `/dev/pts/3 /bin/echo hi` with single spaces and with spaces
added in front, between and behind has the same outcome. -/
theorem exec_spacing_insensitive_witness :
    service_exec ext_ok (some "/dev/pts/3 /bin/echo hi".toList) [] =
      service_exec ext_ok (some "  /dev/pts/3   /bin/echo  hi ".toList) [] :=
  (exec_spacing_insensitive ext_ok ["/dev/pts/3".toList, "/bin/echo".toList, "hi".toList]
    (by decide) (fun j => if j = 0 ∨ j = 3 then 0 else 1)
    (fun j => if j = 0 then 2 else if j = 1 then 3 else if j = 2 then 2 else 1)
    (by
      intro j h1 h2
      simp only [List.length_cons, List.length_nil] at h2
      beta_reduce
      split_ifs <;> omega)
    (by
      intro j h1 h2
      simp only [List.length_cons, List.length_nil] at h2
      beta_reduce
      split_ifs <;> omega)
    [] []).1

end PtsDaemon
